import Mathlib

set_option maxRecDepth 200000

/-!
Verification development for the length-aware batch scheduling subsystem of
`sequence_models/data.py`: the bucketed epoch-seeded shuffling sampler
(`SortishSampler`) and the greedy token-budget batch packer
(`ApproxBatchSampler`).

The Python code is embedded shallowly:
* machine integers are `Nat` (all quantities in the code are non-negative)
  except `bucket_size`, which Python allows to be negative and which the code
  never validates, so it is an `Int`;
* `np.random` (the legacy numpy global generator) is modelled exactly: the
  MT19937 word stream produced by `np.random.seed(epoch)` and the rejection
  sampling (`random_interval`) and Fisher-Yates loop used by
  `np.random.shuffle`;
* Python `assert` statements become `Option`: a failing assertion is `none`;
* the in-place mutation performed by `SortishSampler.__iter__` on `self.data`
  is explicit state passing: the iterator call returns the output together
  with the mutated sampler.
-/

/-! ### MT19937, as seeded and consumed by `np.random` -/

/-- Word size of the generator. -/
def U32 : Nat := 4294967296

/-- One step of the MT19937 seeding recurrence used by `np.random.seed`:
`key[i+1] = (1812433253 * (key[i] xor (key[i] >> 30)) + i + 1) mod 2^32`. -/
def mtKeyStep (p idx : Nat) : Nat :=
  (1812433253 * (p ^^^ (p >>> 30)) + idx + 1) % U32

/-- Iterate the seeding recurrence `n` times starting from key value `p` at
key index `idx`. -/
def mtKeyFrom (p idx : Nat) : Nat → Nat
  | 0 => p
  | n + 1 => mtKeyFrom (mtKeyStep p idx) (idx + 1) n

/-- Entry `i` of the 624-word key array right after `np.random.seed (seed)`. -/
def mtKey (seed i : Nat) : Nat :=
  mtKeyFrom (seed % U32) 0 i

/-- The MT19937 tempering transform applied to each generated word. -/
def mtTemper (y0 : Nat) : Nat :=
  let y1 := y0 ^^^ (y0 >>> 11)
  let y2 := y1 ^^^ ((y1 <<< 7) % U32 &&& 0x9d2c5680)
  let y3 := y2 ^^^ ((y2 <<< 15) % U32 &&& 0xefc62b60)
  y3 ^^^ (y3 >>> 18)

/-- One word of the MT19937 twist: combines key words `a` (high bit),
`b` (low 31 bits) and `c` (the word 397 positions ahead). -/
def mtTwistWord (a b c : Nat) : Nat :=
  let y := (a &&& 0x80000000) ||| (b &&& 0x7fffffff)
  c ^^^ (y >>> 1) ^^^ (if y % 2 = 1 then 0x9908b0df else 0)

/-- The `k`-th 32-bit word drawn from `np.random` after `np.random.seed (seed)`.
Seeding sets the generator position past the key array, so the first draw
twists the whole array; for `k < 227` the twisted word depends only on key
words `k`, `k + 1` and `k + 397`, all still untouched by the twist when word
`k` is produced.  Every concrete evaluation below consumes far fewer than
227 words per seeding. -/
def mtStream (seed : Nat) (k : Nat) : Nat :=
  mtTemper (mtTwistWord (mtKey seed k) (mtKey seed (k + 1)) (mtKey seed (k + 397)))

/-- The all-ones mask covering `mx`, as built by numpy's `random_interval`. -/
def maskFor (mx : Nat) : Nat :=
  let m1 := mx ||| (mx >>> 1)
  let m2 := m1 ||| (m1 >>> 2)
  let m3 := m2 ||| (m2 >>> 4)
  let m4 := m3 ||| (m3 >>> 8)
  let m5 := m4 ||| (m4 >>> 16)
  m5 ||| (m5 >>> 32)

/-- Fuel bound for the rejection loop of `random_interval`.  The C loop
terminates with probability one; every accepted draw masks to at most `mx`,
and the concrete evaluations below never exhaust the fuel. -/
def rejFuel : Nat := 64

/-- Rejection loop of numpy's `random_interval`: draw a word, mask it, accept
if it is at most `mx`.  Returns the value and the next stream position. -/
def randomIntervalAux (stream : Nat → Nat) (mx : Nat) (pos : Nat) : Nat → Nat × Nat
  | 0 => (0, pos)
  | fuel + 1 =>
    let v := stream pos &&& maskFor mx
    if v ≤ mx then (v, pos + 1) else randomIntervalAux stream mx (pos + 1) fuel

/-- numpy's `random_interval mx`: a draw uniform on `0..mx`; `mx = 0` consumes
no randomness. -/
def randomInterval (stream : Nat → Nat) (mx : Nat) (pos : Nat) : Nat × Nat :=
  if mx = 0 then (0, pos) else randomIntervalAux stream mx pos rejFuel

/-! ### `np.random.shuffle`: in-place Fisher-Yates -/

/-- Exchange the elements at positions `i` and `j`; out-of-range positions
leave the list unchanged (never hit by the shuffle loop). -/
def swapList (l : List α) (i j : Nat) : List α :=
  match l.get? i, l.get? j with
  | some a, some b => (l.set i b).set j a
  | _, _ => l

/-- The Fisher-Yates loop of `np.random.shuffle`: for `i` from `n - 1` down
to `1`, draw `j` uniform on `0..i` and swap positions `i` and `j`.  The fuel
argument is the current value of `i`. -/
def shuffleAux (stream : Nat → Nat) (l : List α) (pos : Nat) : Nat → List α × Nat
  | 0 => (l, pos)
  | i + 1 =>
    let d := randomInterval stream (i + 1) pos
    shuffleAux stream (swapList l (i + 1) d.1) d.2 i

/-- `np.random.shuffle` on a sequence, consuming words of `stream` starting
at position `pos`; returns the shuffled sequence and the next position. -/
def npShuffle (stream : Nat → Nat) (l : List α) (pos : Nat) : List α × Nat :=
  match l.length with
  | 0 => (l, pos)
  | n + 1 => shuffleAux stream l pos n

/-! ### Python list slicing -/

/-- Python `l[start:stop]` for `0 ≤ start ≤ stop`. -/
def pySlice (l : List α) (start stop : Nat) : List α :=
  (l.drop start).take (stop - start)

/-- Python `l[start:stop:step]` for non-negative bounds and `step ≥ 1`:
elements at positions `start, start + step, ...` below `stop` (and below the
length of `l`). -/
def pySlice3 (l : List α) (start stop step : Nat) : List α :=
  (List.range ((stop - start + step - 1) / step)).filterMap
    (fun k => l.get? (start + k * step))

/-- Ceiling of the rational `a / b` for `b ≠ 0`, as `int(np.ceil(a / b))`
computes it. -/
def ceilIntDiv (a b : Int) : Int := -((-a).fdiv b)

/-! ### `np.argsort`

numpy's default sort kind orders the indices so that the lengths are
ascending, but leaves the relative order of indices with equal lengths
unspecified (its default quicksort is not stable).  The model below resolves
ties by original index (a stable insertion sort); no theorem in this file
depends on the tie resolution except where its claim says so explicitly. -/

/-- Insert index `i` into an index list sorted ascending by `keys`, after all
entries with key at most `keys i`. -/
def insertSorted (keys : Nat → Nat) (i : Nat) : List Nat → List Nat
  | [] => [i]
  | j :: rest => if keys j ≤ keys i then j :: insertSorted keys i rest else i :: j :: rest

/-- Model of `np.argsort sequence_lengths`: indices `0..N-1` ordered by
ascending length. -/
def argsort (sequence_lengths : List Nat) : List Nat :=
  (List.range sequence_lengths.length).foldl
    (fun acc i => insertSorted (fun k => sequence_lengths.getD k 0) i acc) []

/-! ### `SortishSampler` -/

/-- The fields assigned by `SortishSampler.__init__`.  `data` is the bucketed
index order (`__init__` overwrites the flat `argsort` result with the list of
buckets). -/
structure SortishSampler where
  data : List (List Nat)
  num_replicas : Nat
  num_samples : Nat
  bucket_size : Int
  rank : Nat
  epoch : Nat
  total_size : Nat
deriving DecidableEq, Repr

/-- `SortishSampler.__init__`.  Performs no validation; the only failures are
the two Python `ZeroDivisionError`s, when `bucket_size = 0` or
`num_replicas = 0` reach a division.  `n_buckets` is
`int(np.ceil(N / bucket_size))` and Python's `range` of a negative count is
empty, hence `Int.toNat`. -/
def mkSortish (sequence_lengths : List Nat) (bucket_size : Int)
    (num_replicas : Nat := 1) (rank : Nat := 0) : Option SortishSampler :=
  if bucket_size = 0 ∨ num_replicas = 0 then none
  else
    let data0 := argsort sequence_lengths
    let num_samples := (data0.length + num_replicas - 1) / num_replicas
    let nBuckets := (ceilIntDiv (data0.length : Int) bucket_size).toNat
    let b := bucket_size.toNat
    some {
      data := (List.range nBuckets).map (fun i => pySlice data0 (i * b) (i * b + b))
      num_replicas := num_replicas
      num_samples := num_samples
      bucket_size := bucket_size
      rank := rank
      epoch := 0
      total_size := num_samples * num_replicas }

/-- `SortishSampler.set_epoch`. -/
def set_epoch (s : SortishSampler) (epoch : Nat) : SortishSampler :=
  { s with epoch := epoch }

/-- The in-place mutation performed by `SortishSampler.__iter__`: shuffle the
contents of every bucket in order, then shuffle the list of buckets, all on
one word stream. -/
def shuffleEach (stream : Nat → Nat) : List (List Nat) → Nat → List (List Nat) × Nat
  | [], pos => ([], pos)
  | bkt :: rest, pos =>
    ((npShuffle stream bkt pos).1 ::
        (shuffleEach stream rest (npShuffle stream bkt pos).2).1,
      (shuffleEach stream rest (npShuffle stream bkt pos).2).2)

/-- The state of the sampler after the shuffles at the top of `__iter__`. -/
def iterData (stream : Nat → Nat) (s : SortishSampler) : SortishSampler :=
  { s with data :=
      (npShuffle stream (shuffleEach stream s.data 0).1 (shuffleEach stream s.data 0).2).1 }

/-- `indices` after the wraparound padding line
`indices += indices[:(self.total_size - len(indices))]`. -/
def paddedIndices (s : SortishSampler) : List Nat :=
  s.data.flatten ++ pySlice s.data.flatten 0 (s.total_size - s.data.flatten.length)

/-- The subsample line `indices[self.rank:self.total_size:self.num_replicas]`
evaluated on the padded indices of `s`. -/
def shardOf (s : SortishSampler) (r : Nat) : List Nat :=
  pySlice3 (paddedIndices s) r s.total_size s.num_replicas

/-- The value produced by the tail of `__iter__` (after the shuffles): `none`
when one of the two `assert` statements fails. -/
def iterOutput (s : SortishSampler) : Option (List Nat) :=
  if (paddedIndices s).length = s.total_size then
    if (shardOf s s.rank).length = s.num_samples then some (shardOf s s.rank)
    else none
  else none

/-- `SortishSampler.__iter__` with an explicit word stream standing for the
freshly seeded global generator: returns the produced index sequence (or
`none` on assertion failure) together with the mutated sampler. -/
def iterSortish (stream : Nat → Nat) (s : SortishSampler) :
    Option (List Nat) × SortishSampler :=
  (iterOutput (iterData stream s), iterData stream s)

/-- `SortishSampler.__iter__` exactly as the code runs it: the stream is the
one produced by `np.random.seed(self.epoch)`. -/
def iterSortishNp (s : SortishSampler) : Option (List Nat) × SortishSampler :=
  iterSortish (mtStream s.epoch) s

/-- The operations a training loop can apply to a live sampler. -/
inductive SamplerOp where
  | setEpochOp (e : Nat)
  | iterOp
deriving Repr

/-- Apply one operation to the sampler state. -/
def applyOp (s : SortishSampler) : SamplerOp → SortishSampler
  | .setEpochOp e => set_epoch s e
  | .iterOp => (iterSortishNp s).2

/-- Apply a sequence of operations to the sampler state. -/
def applyOps (s : SortishSampler) (ops : List SamplerOp) : SortishSampler :=
  ops.foldl applyOp s

/-! ### `ApproxBatchSampler` -/

/-- The fields assigned by `ApproxBatchSampler.__init__`; `sampler` is the
index source consumed by `__iter__` and `sample_lengths` the length lookup. -/
structure ApproxBatchSampler where
  longest_token : Nat
  max_tokens : Nat
  max_batch : Nat
  sampler : List Nat
  sample_lengths : Nat → Nat

/-- `ApproxBatchSampler.__init__`: stores the configuration unchecked. -/
def mkApprox (sampler : List Nat) (max_tokens max_batch : Nat)
    (sample_lengths : Nat → Nat) : ApproxBatchSampler :=
  { longest_token := 0, max_tokens := max_tokens, max_batch := max_batch,
    sampler := sampler, sample_lengths := sample_lengths }

/-- The loop of `ApproxBatchSampler.__iter__`: `batch` and `length` are the
accumulating batch and its running maximum length.  The generator ends when
the source is exhausted, without emitting the accumulated batch. -/
def approxIterAux (lengths : Nat → Nat) (max_tokens max_batch : Nat) :
    List Nat → List Nat → Nat → List (List Nat)
  | [], _, _ => []
  | idx :: rest, batch, length =>
    let this_length := lengths idx
    if (batch.length + 1) * max length this_length ≤ max_tokens then
      let batch' := batch ++ [idx]
      if batch'.length = max_batch then
        batch' :: approxIterAux lengths max_tokens max_batch rest [] 0
      else
        approxIterAux lengths max_tokens max_batch rest batch' (max length this_length)
    else
      batch :: approxIterAux lengths max_tokens max_batch rest [idx] this_length

/-- `ApproxBatchSampler.__iter__`: the list of emitted batches. -/
def approxIter (s : ApproxBatchSampler) : List (List Nat) :=
  approxIterAux s.sample_lengths s.max_tokens s.max_batch s.sampler [] 0

/-- The maximum length of a batch member under the lookup `lengths`; the
effective token cost of a batch `B` is `B.length * maxBatchLen lengths B`. -/
def maxBatchLen (lengths : Nat → Nat) (batch : List Nat) : Nat :=
  batch.foldl (fun m i => max m (lengths i)) 0

/-! ### Sanity anchors for the generator model -/

/-- First word after `np.random.seed 0` (the classic MT19937 seed-0 value). -/
lemma mtStream_seed0_word0 : mtStream 0 0 = 2357136044 := by decide

/-- Second word after `np.random.seed 0`. -/
lemma mtStream_seed0_word1 : mtStream 0 1 = 2546248239 := by decide



/-! ### Swap and shuffle preserve the multiset of elements -/

/-- Replacing the element at `k` by `x` and prepending the old element is a
permutation of prepending `x`. -/
lemma cons_set_perm : ∀ (t : List α) (k : Nat) (b x : α),
    t.get? k = some b → List.Perm (b :: t.set k x) (x :: t) := by
  intro t
  induction t with
  | nil => intro k b x h; simp at h
  | cons c t' ih =>
    intro k b x h
    cases k with
    | zero =>
      rw [List.get?_cons_zero] at h
      obtain rfl := Option.some.inj h
      simp only [List.set_cons_zero]
      exact List.Perm.swap _ _ _
    | succ m =>
      simp only [List.get?_cons_succ] at h
      simp only [List.set_cons_succ]
      have h1 : List.Perm (b :: c :: t'.set m x) (c :: b :: t'.set m x) :=
        List.Perm.swap c b _
      have h2 : List.Perm (c :: b :: t'.set m x) (c :: x :: t') := (ih m b x h).cons c
      have h3 : List.Perm (c :: x :: t') (x :: c :: t') := List.Perm.swap x c t'
      exact (h1.trans h2).trans h3

/-- A double `set` that exchanges two existing elements is a permutation. -/
lemma set_set_perm : ∀ (l : List α) (i j : Nat) (a b : α),
    l.get? i = some a → l.get? j = some b → List.Perm ((l.set i b).set j a) l := by
  intro l
  induction l with
  | nil => intro i j a b h _; simp at h
  | cons x t ih =>
    intro i j a b hi hj
    cases i with
    | zero =>
      rw [List.get?_cons_zero] at hi
      obtain rfl := Option.some.inj hi
      cases j with
      | zero => simp
      | succ k =>
        simp only [List.get?_cons_succ] at hj
        simp only [List.set_cons_zero, List.set_cons_succ]
        exact cons_set_perm t k b _ hj
    | succ s =>
      simp only [List.get?_cons_succ] at hi
      cases j with
      | zero =>
        rw [List.get?_cons_zero] at hj
        obtain rfl := Option.some.inj hj
        simp only [List.set_cons_succ, List.set_cons_zero]
        exact cons_set_perm t s a _ hi
      | succ k =>
        simp only [List.get?_cons_succ] at hj
        simp only [List.set_cons_succ]
        exact (ih s k a b hi hj).cons x

/-- Swapping two positions is a permutation (for any positions). -/
lemma swapList_perm (l : List α) (i j : Nat) : List.Perm (swapList l i j) l := by
  unfold swapList
  cases hi : l.get? i with
  | none => exact List.Perm.refl l
  | some a =>
    cases hj : l.get? j with
    | none => exact List.Perm.refl l
    | some b => exact set_set_perm l i j a b hi hj

/-- The Fisher-Yates loop is a permutation. -/
lemma shuffleAux_perm (stream : Nat → Nat) :
    ∀ (n : Nat) (l : List α) (pos : Nat), List.Perm (shuffleAux stream l pos n).1 l := by
  intro n
  induction n with
  | zero => intro l pos; exact List.Perm.refl l
  | succ i ih =>
    intro l pos
    simp only [shuffleAux]
    exact (ih _ _).trans (swapList_perm l (i + 1) _)

/-- `np.random.shuffle` is a permutation. -/
lemma npShuffle_perm (stream : Nat → Nat) (l : List α) (pos : Nat) :
    List.Perm (npShuffle stream l pos).1 l := by
  unfold npShuffle
  cases h : l.length with
  | zero => exact List.Perm.refl l
  | succ n => exact shuffleAux_perm stream n l pos

/-- Shuffling every bucket preserves each bucket's multiset of indices. -/
lemma shuffleEach_map_multiset (stream : Nat → Nat) :
    ∀ (data : List (List Nat)) (pos : Nat),
      (shuffleEach stream data pos).1.map Multiset.ofList =
        data.map Multiset.ofList := by
  intro data
  induction data with
  | nil => intro pos; rfl
  | cons bkt rest ih =>
    intro pos
    show Multiset.ofList (npShuffle stream bkt pos).1 ::
        (shuffleEach stream rest (npShuffle stream bkt pos).2).1.map Multiset.ofList =
      Multiset.ofList bkt :: rest.map Multiset.ofList
    rw [ih]
    congr 1
    exact Multiset.coe_eq_coe.mpr (npShuffle_perm stream bkt pos)

/-- Shuffling every bucket permutes the concatenation of the buckets. -/
lemma shuffleEach_flatten_perm (stream : Nat → Nat) :
    ∀ (data : List (List Nat)) (pos : Nat),
      List.Perm (shuffleEach stream data pos).1.flatten data.flatten := by
  intro data
  induction data with
  | nil => intro pos; exact List.Perm.refl _
  | cons bkt rest ih =>
    intro pos
    show List.Perm ((npShuffle stream bkt pos).1 ::
        (shuffleEach stream rest (npShuffle stream bkt pos).2).1).flatten
      (bkt :: rest).flatten
    simp only [List.flatten_cons]
    exact (npShuffle_perm stream bkt pos).append (ih _)

/-- The shuffles at the top of `__iter__` permute the concatenated indices. -/
lemma iterData_flatten_perm (stream : Nat → Nat) (s : SortishSampler) :
    List.Perm (iterData stream s).data.flatten s.data.flatten := by
  show List.Perm
    (npShuffle stream (shuffleEach stream s.data 0).1 (shuffleEach stream s.data 0).2).1.flatten
    s.data.flatten
  exact ((npShuffle_perm stream _ _).flatten).trans (shuffleEach_flatten_perm stream s.data 0)

/-- The shuffles at the top of `__iter__` permute the list of bucket
multisets. -/
lemma iterData_multiset_perm (stream : Nat → Nat) (s : SortishSampler) :
    List.Perm ((iterData stream s).data.map Multiset.ofList)
      (s.data.map Multiset.ofList) := by
  have h1 :=
    (npShuffle_perm stream (shuffleEach stream s.data 0).1
      (shuffleEach stream s.data 0).2).map Multiset.ofList
  rw [shuffleEach_map_multiset stream s.data 0] at h1
  exact h1

/-- `iterData` only rewrites `data`. -/
lemma iterData_rank (stream : Nat → Nat) (s : SortishSampler) :
    (iterData stream s).rank = s.rank := rfl

lemma iterData_num_replicas (stream : Nat → Nat) (s : SortishSampler) :
    (iterData stream s).num_replicas = s.num_replicas := rfl

lemma iterData_num_samples (stream : Nat → Nat) (s : SortishSampler) :
    (iterData stream s).num_samples = s.num_samples := rfl

lemma iterData_total_size (stream : Nat → Nat) (s : SortishSampler) :
    (iterData stream s).total_size = s.total_size := rfl

lemma iterData_epoch (stream : Nat → Nat) (s : SortishSampler) :
    (iterData stream s).epoch = s.epoch := rfl

/-! ### `argsort` is a permutation of `0..N-1`; buckets partition it -/

/-- Insertion keeps the multiset: inserting `i` permutes `i :: l`. -/
lemma insertSorted_perm (keys : Nat → Nat) (i : Nat) :
    ∀ (l : List Nat), List.Perm (insertSorted keys i l) (i :: l) := by
  intro l
  induction l with
  | nil => exact List.Perm.refl _
  | cons j rest ih =>
    simp only [insertSorted]
    split
    · exact (ih.cons j).trans (List.Perm.swap i j rest)
    · exact List.Perm.refl _

/-- Folding insertion over a list of indices accumulates exactly those
indices. -/
lemma foldl_insertSorted_perm (keys : Nat → Nat) :
    ∀ (xs acc : List Nat),
      List.Perm (xs.foldl (fun a i => insertSorted keys i a) acc) (xs ++ acc) := by
  intro xs
  induction xs with
  | nil => intro acc; exact List.Perm.refl _
  | cons x rest ih =>
    intro acc
    have h1 := ih (insertSorted keys x acc)
    have h2 : List.Perm (rest ++ insertSorted keys x acc) (rest ++ (x :: acc)) :=
      (insertSorted_perm keys x acc).append_left rest
    have h3 : List.Perm (rest ++ (x :: acc)) (x :: (rest ++ acc)) := List.perm_middle
    simpa using (h1.trans h2).trans h3

/-- The computed index order is a permutation of `0..N-1`. -/
lemma argsort_perm (sequence_lengths : List Nat) :
    List.Perm (argsort sequence_lengths) (List.range sequence_lengths.length) := by
  unfold argsort
  have h := foldl_insertSorted_perm (fun k => sequence_lengths.getD k 0)
    (List.range sequence_lengths.length) []
  simpa using h

/-- The index order has one entry per dataset index. -/
lemma argsort_length (sequence_lengths : List Nat) :
    (argsort sequence_lengths).length = sequence_lengths.length := by
  simpa using (argsort_perm sequence_lengths).length_eq

/-- Concatenating the size-`b` chunks of `l` recovers an initial segment. -/
lemma chunk_flatten_take (l : List Nat) (b : Nat) :
    ∀ (M : Nat),
      ((List.range M).map (fun i => pySlice l (i * b) (i * b + b))).flatten =
        l.take (M * b) := by
  intro M
  induction M with
  | zero => simp
  | succ m ih =>
    rw [List.range_succ, List.map_append, List.flatten_append, ih]
    simp only [List.map_cons, List.map_nil, List.flatten_cons, List.flatten_nil,
      List.append_nil, pySlice]
    rw [Nat.add_sub_cancel_left, Nat.succ_mul, List.take_add]

/-- For positive `b`, `b * ceil(N / b)` covers `N`. -/
lemma ceilIntDiv_ge (N : Nat) (b : Int) (hb : 0 < b) :
    0 ≤ ceilIntDiv (N : Int) b ∧ (N : Int) ≤ b * ceilIntDiv (N : Int) b := by
  have hid := Int.fdiv_add_fmod (-(N : Int)) b
  have hnn : 0 ≤ (-(N : Int)).fmod b := Int.fmod_nonneg' _ hb
  have hlt : (-(N : Int)).fmod b < b := Int.fmod_lt_of_pos _ hb
  unfold ceilIntDiv
  constructor
  · by_contra hneg
    push_neg at hneg
    have h1 : (-(N : Int)).fdiv b ≥ 1 := by omega
    have h2 : b * (-(N : Int)).fdiv b ≥ b * 1 :=
      mul_le_mul_of_nonneg_left h1 (le_of_lt hb)
    have h3 : (0 : Int) ≤ N := Int.ofNat_nonneg N
    omega
  · have h2 : b * ((-(N : Int)).fdiv b) = -(N : Int) - (-(N : Int)).fmod b := by omega
    have h3 : b * -((-(N : Int)).fdiv b) = -(b * ((-(N : Int)).fdiv b)) := by ring
    omega

/-- Nat form: `toNat (ceil (N / b)) * toNat b` covers `N` for positive `b`. -/
lemma ceilIntDiv_toNat_mul_ge (N : Nat) (b : Int) (hb : 0 < b) :
    N ≤ (ceilIntDiv (N : Int) b).toNat * b.toNat := by
  obtain ⟨hq, hN⟩ := ceilIntDiv_ge N b hb
  have hb' : (0 : Int) ≤ b := le_of_lt hb
  have h1 : (N : Int) ≤ ((ceilIntDiv (N : Int) b).toNat * b.toNat : Nat) := by
    push_cast
    rw [Int.toNat_of_nonneg hq, Int.toNat_of_nonneg hb']
    linarith [hN, mul_comm b (ceilIntDiv (N : Int) b)]
  exact_mod_cast h1

/-! ### Consequences of `__init__` -/

/-- Characterisation of a successful construction: no validation happens, the
fields are exactly the assignments of `__init__`. -/
lemma mkSortish_some {L : List Nat} {b : Int} {R rk : Nat} {s : SortishSampler}
    (h : mkSortish L b R rk = some s) :
    b ≠ 0 ∧ R ≠ 0 ∧
    s = { data := (List.range ((ceilIntDiv ((argsort L).length : Int) b).toNat)).map
            (fun i => pySlice (argsort L) (i * b.toNat) (i * b.toNat + b.toNat))
          num_replicas := R
          num_samples := ((argsort L).length + R - 1) / R
          bucket_size := b
          rank := rk
          epoch := 0
          total_size := ((argsort L).length + R - 1) / R * R } := by
  unfold mkSortish at h
  split at h
  · exact absurd h (by simp)
  · next hc =>
    push_neg at hc
    exact ⟨hc.1, hc.2, (Option.some.inj h).symm⟩

/-- For positive `bucket_size` the buckets concatenate back to the full
ascending order. -/
lemma mk_data_flatten {L : List Nat} {b : Int} {R rk : Nat} {s : SortishSampler}
    (h : mkSortish L b R rk = some s) (hb : 0 < b) :
    s.data.flatten = argsort L := by
  obtain ⟨h0, hR, rfl⟩ := mkSortish_some h
  show ((List.range _).map _).flatten = argsort L
  rw [chunk_flatten_take]
  exact List.take_of_length_le (ceilIntDiv_toNat_mul_ge (argsort L).length b hb)

/-! ### The token-budget invariant of `ApproxBatchSampler.__iter__` -/

/-- Appending one index to a batch takes the max with its length. -/
lemma maxBatchLen_append (lengths : Nat → Nat) (batch : List Nat) (i : Nat) :
    maxBatchLen lengths (batch ++ [i]) = max (maxBatchLen lengths batch) (lengths i) := by
  simp [maxBatchLen]

/-- Loop invariant: if the running maximum is the true batch maximum and the
accumulated batch respects the token budget (when it has at least two
members), then so does every emitted batch. -/
lemma approxIterAux_bound (lengths : Nat → Nat) (max_tokens max_batch : Nat) :
    ∀ (stream batch : List Nat) (length : Nat),
      length = maxBatchLen lengths batch →
      (1 < batch.length → batch.length * length ≤ max_tokens) →
      ∀ B ∈ approxIterAux lengths max_tokens max_batch stream batch length,
        1 < B.length → B.length * maxBatchLen lengths B ≤ max_tokens := by
  intro stream
  induction stream with
  | nil => intro batch length _ _ B hB; simp [approxIterAux] at hB
  | cons idx rest ih =>
    intro batch length hlen hinv B hB hB1
    simp only [approxIterAux] at hB
    split at hB
    · next hfit =>
      split at hB
      · next hfull =>
        rcases List.mem_cons.mp hB with rfl | hB'
        · rw [maxBatchLen_append, ← hlen]
          simpa using hfit
        · exact ih [] 0 rfl (by simp) B hB' hB1
      · next hnotfull =>
        refine ih (batch ++ [idx]) (max length (lengths idx)) ?_ ?_ B hB hB1
        · rw [maxBatchLen_append, hlen]
        · intro _
          simpa using hfit
    · next hover =>
      rcases List.mem_cons.mp hB with rfl | hB'
      · rw [← hlen]
        exact hinv hB1
      · refine ih [idx] (lengths idx) ?_ ?_ B hB' hB1
        · simp [maxBatchLen]
        · intro hcon; simp at hcon

/-! ### Strided slices -/

/-- Every position enumerated by the strided slice bound is in range. -/
lemma slice_index_lt {len start step k : Nat} (hstep : 0 < step)
    (hk : k < (len - start + step - 1) / step) : start + k * step < len := by
  by_cases hA : len ≤ start
  · exfalso
    have h0 : len - start = 0 := Nat.sub_eq_zero_of_le hA
    rw [h0] at hk
    have h1 : (0 + step - 1) / step = 0 := Nat.div_eq_of_lt (by omega)
    omega
  · push_neg at hA
    have h1 : (k + 1) * step ≤ ((len - start + step - 1) / step) * step :=
      Nat.mul_le_mul_right step hk
    have h2 : ((len - start + step - 1) / step) * step ≤ len - start + step - 1 :=
      Nat.div_mul_le_self _ _
    have h3 : (k + 1) * step = k * step + step := by ring
    omega

/-- A `filterMap` whose function always hits is a `map`. -/
lemma filterMap_eq_map_of_some {f : α → Option β} {g : α → β} :
    ∀ (l : List α), (∀ a ∈ l, f a = some (g a)) → l.filterMap f = l.map g := by
  intro l
  induction l with
  | nil => intro _; rfl
  | cons a t ih =>
    intro h
    rw [List.filterMap_cons, h a (by simp), List.map_cons,
      ih (fun x hx => h x (by simp [hx]))]

/-- When the stop bound is the length of the list, the strided slice is a map
over the enumerated positions. -/
lemma pySlice3_eq_map (l : List Nat) (start step : Nat) (hstep : 0 < step) :
    pySlice3 l start l.length step =
      (List.range ((l.length - start + step - 1) / step)).map
        (fun k => l.getD (start + k * step) 0) := by
  unfold pySlice3
  refine filterMap_eq_map_of_some _ (fun k hk => ?_)
  have hlt : start + k * step < l.length :=
    slice_index_lt hstep (List.mem_range.mp hk)
  rw [List.get?_eq_getElem?, List.getElem?_eq_getElem hlt]
  simp [List.getD_eq_getElem?_getD, List.getElem?_eq_getElem hlt]

/-- Number of strided positions of a residue class `r < R` below `ns * R`. -/
lemma stride_count (ns R r : Nat) (hR : 0 < R) (hr : r < R) :
    (ns * R - r + R - 1) / R = ns := by
  cases ns with
  | zero =>
    simp only [Nat.zero_mul]
    exact Nat.div_eq_of_lt (by omega)
  | succ m =>
    have hc : (m + 1) * R = R * (m + 1) := Nat.mul_comm _ _
    have hT : R ≤ (m + 1) * R := by
      have : (m + 1) * R = m * R + R := by ring
      omega
    have heq : (m + 1) * R - r + R - 1 = (R - 1 - r) + R * (m + 1) := by omega
    rw [heq, Nat.add_mul_div_left _ _ hR, Nat.div_eq_of_lt (by omega), Nat.zero_add]

/-- Element access in a map over `range`. -/
lemma getD_map_range (m : Nat) (f : Nat → Nat) (k : Nat) (hk : k < m) :
    ((List.range m).map f).getD k 0 = f k := by
  rw [List.getD_eq_getElem?_getD, List.getElem?_map, List.getElem?_range hk]
  rfl

/-- The degenerate strided slice `l[0:len(l):1]` is `l` itself. -/
lemma pySlice3_one (l : List Nat) : pySlice3 l 0 l.length 1 = l := by
  rw [pySlice3_eq_map l 0 1 Nat.one_pos]
  have hm : (l.length - 0 + 1 - 1) / 1 = l.length := by simp
  rw [hm]
  apply List.ext_getElem?
  intro n
  simp only [List.getElem?_map]
  rcases Nat.lt_or_ge n l.length with hn | hn
  · rw [List.getElem?_range hn]
    simp [List.getD_eq_getElem?_getD, List.getElem?_eq_getElem hn]
  · have h1 : (List.range l.length)[n]? = none := List.getElem?_eq_none (by simpa using hn)
    have h2 : l[n]? = none := List.getElem?_eq_none hn
    rw [h1, h2]
    rfl

/-- Length of the padded index list, when the wraparound pad fits. -/
lemma paddedIndices_length (s : SortishSampler)
    (hle : s.data.flatten.length ≤ s.total_size)
    (h2 : s.total_size ≤ 2 * s.data.flatten.length) :
    (paddedIndices s).length = s.total_size := by
  unfold paddedIndices pySlice
  simp only [List.length_append, List.drop_zero, List.length_take, Nat.sub_zero]
  omega

/-! ### Assembling the output of `__iter__` -/

/-- The strided shard as a map over its positions. -/
lemma shardOf_eq_map (s' : SortishSampler) (r : Nat)
    (hlen : (paddedIndices s').length = s'.total_size)
    (hR : 0 < s'.num_replicas) :
    shardOf s' r =
      (List.range ((s'.total_size - r + s'.num_replicas - 1) / s'.num_replicas)).map
        (fun k => (paddedIndices s').getD (r + k * s'.num_replicas) 0) := by
  unfold shardOf
  rw [← hlen]
  exact pySlice3_eq_map _ _ _ hR

/-- Every shard of a full padded permutation has exactly `num_samples`
entries. -/
lemma shardOf_length (s' : SortishSampler) (r : Nat)
    (hlen : (paddedIndices s').length = s'.total_size)
    (htot : s'.total_size = s'.num_samples * s'.num_replicas)
    (hR : 0 < s'.num_replicas) (hr : r < s'.num_replicas) :
    (shardOf s' r).length = s'.num_samples := by
  rw [shardOf_eq_map s' r hlen hR, List.length_map, List.length_range, htot,
    stride_count _ _ _ hR hr]

/-- Strided interleaving of the shards reconstructs the padded permutation. -/
lemma shard_reconstruct (s' : SortishSampler)
    (hlen : (paddedIndices s').length = s'.total_size)
    (htot : s'.total_size = s'.num_samples * s'.num_replicas)
    (hR : 0 < s'.num_replicas) (i : Nat) (hi : i < s'.total_size) :
    (paddedIndices s').getD i 0 =
      (shardOf s' (i % s'.num_replicas)).getD (i / s'.num_replicas) 0 := by
  have hm : (s'.total_size - i % s'.num_replicas + s'.num_replicas - 1) / s'.num_replicas
      = s'.num_samples := by
    rw [htot]
    exact stride_count _ _ _ hR (Nat.mod_lt _ hR)
  have hk : i / s'.num_replicas < s'.num_samples :=
    (Nat.div_lt_iff_lt_mul hR).mpr (htot ▸ hi)
  rw [shardOf_eq_map s' _ hlen hR, hm, getD_map_range _ _ _ hk, Nat.mod_add_div']

/-- Both assertions pass: `__iter__` returns the rank's shard. -/
lemma iterOutput_some (s' : SortishSampler)
    (h1 : (paddedIndices s').length = s'.total_size)
    (h2 : (shardOf s' s'.rank).length = s'.num_samples) :
    iterOutput s' = some (shardOf s' s'.rank) := by
  unfold iterOutput
  rw [if_pos h1, if_pos h2]

/-- In the single-replica case the produced sequence is the whole
concatenation of the shuffled buckets. -/
lemma iterOutput_single (s' : SortishSampler)
    (hR : s'.num_replicas = 1) (hrk : s'.rank = 0)
    (hns : s'.num_samples = s'.total_size)
    (hN : s'.data.flatten.length = s'.total_size) :
    iterOutput s' = some s'.data.flatten := by
  have hpad : paddedIndices s' = s'.data.flatten := by
    unfold paddedIndices pySlice
    rw [hN]
    simp
  have hlen : (paddedIndices s').length = s'.total_size := by rw [hpad, hN]
  have hshard : shardOf s' s'.rank = s'.data.flatten := by
    unfold shardOf
    rw [hrk, hR, hpad, ← hN]
    exact pySlice3_one _
  rw [iterOutput_some s' hlen (by rw [hshard, hN, hns])]
  rw [hshard]

/-- Ceiling division recovers at least the numerator. -/
lemma le_ceil_mul (N R : Nat) (hR : 0 < R) : N ≤ (N + R - 1) / R * R := by
  have h1 := Nat.div_add_mod (N + R - 1) R
  have h2 : (N + R - 1) % R < R := Nat.mod_lt _ hR
  have h3 : (N + R - 1) / R * R = R * ((N + R - 1) / R) := Nat.mul_comm _ _
  omega

/-- The buckets of any reachable sampler state are, up to order, the
construction buckets. -/
lemma applyOps_multiset_perm : ∀ (ops : List SamplerOp) (s : SortishSampler),
    List.Perm ((applyOps s ops).data.map Multiset.ofList) (s.data.map Multiset.ofList) := by
  intro ops
  induction ops with
  | nil => intro s; exact List.Perm.refl _
  | cons op rest ih =>
    intro s
    have h2 : List.Perm ((applyOp s op).data.map Multiset.ofList)
        (s.data.map Multiset.ofList) := by
      cases op with
      | setEpochOp e => exact List.Perm.refl _
      | iterOp => exact iterData_multiset_perm _ s
    exact (ih (applyOp s op)).trans h2

/-! ### Claims about `ApproxBatchSampler` -/

/-- C1 (code bug): at source exhaustion `ApproxBatchSampler.__iter__` ends
without emitting the accumulated non-empty batch.  On the stream
`[0, 1, 2, 3]` with lengths `[2, 3, 10, 1]`, `max_tokens = 6`,
`max_batch = 3`, the code emits `[[0, 1], [2]]` and silently drops the
trailing batch `[3]` — index 3 appears in no emitted batch, while the spec
requires the final partial batch to be flushed. -/
theorem approx_iter_drops_trailing_batch :
    approxIter (mkApprox [0, 1, 2, 3] 6 3 (fun i => [2, 3, 10, 1].getD i 0)) =
      [[0, 1], [2]] ∧
    (3 : Nat) ∉
      (approxIter (mkApprox [0, 1, 2, 3] 6 3 (fun i => [2, 3, 10, 1].getD i 0))).flatten := by
  decide

/-- C2: every batch emitted by `ApproxBatchSampler.__iter__` with more than
one member satisfies `len(batch) * max(lengths in batch) ≤ max_tokens`, and
any emitted batch whose cost exceeds `max_tokens` is a singleton. -/
theorem approx_iter_token_bound (sample_lengths : Nat → Nat) (sampler : List Nat)
    (max_tokens max_batch : Nat) (B : List Nat)
    (hB : B ∈ approxIter (mkApprox sampler max_tokens max_batch sample_lengths)) :
    (1 < B.length → B.length * maxBatchLen sample_lengths B ≤ max_tokens) ∧
    (max_tokens < B.length * maxBatchLen sample_lengths B → B.length = 1) := by
  have h1 := approxIterAux_bound sample_lengths max_tokens max_batch sampler [] 0 rfl
    (by simp) B hB
  refine ⟨h1, ?_⟩
  intro hover
  cases B with
  | nil => simp [maxBatchLen] at hover
  | cons a t =>
    cases t with
    | nil => rfl
    | cons c t' => exact absurd hover (Nat.not_lt.mpr (h1 (by simp)))

/-- C2 witness: the batch `[0, 1]` (lengths 2 and 3) emitted under
`max_tokens = 6`, `max_batch = 2` satisfies the bound `2 * 3 ≤ 6`. -/
theorem approx_iter_token_bound_witness :
    (([0, 1] : List Nat) ∈ approxIter (mkApprox [0, 1] 6 2 (fun i => [2, 3].getD i 0))) ∧
    ((1 < ([0, 1] : List Nat).length →
        ([0, 1] : List Nat).length * maxBatchLen (fun i => [2, 3].getD i 0) [0, 1] ≤ 6) ∧
      (6 < ([0, 1] : List Nat).length * maxBatchLen (fun i => [2, 3].getD i 0) [0, 1] →
        ([0, 1] : List Nat).length = 1)) :=
  ⟨by decide, approx_iter_token_bound (fun i => [2, 3].getD i 0) [0, 1] 6 2 [0, 1] (by decide)⟩

/-- C3 (code bug): when an index whose length alone exceeds `max_tokens`
arrives while the accumulating batch is empty, `__iter__` emits an empty
batch before starting the new singleton: on the stream `[0]` with length 7
and `max_tokens = 6` the code emits `[[]]`, an empty batch, contradicting
the claim that every emitted batch is non-empty. -/
theorem approx_iter_emits_empty_batch :
    approxIter (mkApprox [0] 6 2 (fun i => [7].getD i 0)) = [[]] := by
  decide

/-! ### Claims about `SortishSampler` iteration -/

/-- C4 counterexample: a sampler built from distinct lengths (so the index
order is independent of any sort tie policy), epoch 0 throughout and no
`set_epoch` call in between; the second `__iter__` call reseeds from the same
epoch but shuffles the already-shuffled `self.data` in place, and produces a
different index sequence from the first call — iteration is not restartable. -/
theorem sortish_iter_not_restartable_cex :
    (mkSortish [10, 20, 30, 40, 50, 60] 3 1 0).bind (fun s0 => (iterSortishNp s0).1) ≠
      (mkSortish [10, 20, 30, 40, 50, 60] 3 1 0).bind
        (fun s0 => (iterSortishNp (iterSortishNp s0).2).1) := by
  decide

/-- C4 (amended): iteration is a pure function of the stored sampler state;
the stored epoch is unchanged by iteration; and for a single-replica sampler
two consecutive `__iter__` calls with the same stored epoch produce index
sequences that are permutations of one another — but, because `__iter__`
shuffles `self.data` in place, not necessarily the same sequence. -/
theorem sortish_iter_same_epoch_perm (L : List Nat) (b : Int) (s : SortishSampler)
    (h : mkSortish L b 1 0 = some s) (hb : 0 < b) :
    ∃ out1 out2 : List Nat,
      (iterSortishNp s).1 = some out1 ∧
      (iterSortishNp (iterSortishNp s).2).1 = some out2 ∧
      (iterSortishNp s).2.epoch = s.epoch ∧
      List.Perm out2 out1 := by
  obtain ⟨hb0, hR0, hs⟩ := mkSortish_some h
  have f1 : s.num_replicas = 1 := by rw [hs]
  have f2 : s.rank = 0 := by rw [hs]
  have f3 : s.num_samples = (argsort L).length := by rw [hs]; simp
  have f4 : s.total_size = (argsort L).length := by rw [hs]; simp
  have hflat : s.data.flatten = argsort L := mk_data_flatten h hb
  have hN1 : (iterData (mtStream s.epoch) s).data.flatten.length =
      (iterData (mtStream s.epoch) s).total_size := by
    rw [(iterData_flatten_perm _ s).length_eq, hflat, iterData_total_size, f4]
  have hout1 : iterOutput (iterData (mtStream s.epoch) s) =
      some (iterData (mtStream s.epoch) s).data.flatten :=
    iterOutput_single _ (by rw [iterData_num_replicas, f1]) (by rw [iterData_rank, f2])
      (by rw [iterData_num_samples, iterData_total_size, f3, f4]) hN1
  have hN2 : (iterData (mtStream s.epoch) (iterData (mtStream s.epoch) s)).data.flatten.length
      = (iterData (mtStream s.epoch) (iterData (mtStream s.epoch) s)).total_size := by
    rw [(iterData_flatten_perm _ _).length_eq]
    exact hN1
  have hout2 : iterOutput (iterData (mtStream s.epoch) (iterData (mtStream s.epoch) s)) =
      some (iterData (mtStream s.epoch) (iterData (mtStream s.epoch) s)).data.flatten :=
    iterOutput_single _ (by rw [iterData_num_replicas, iterData_num_replicas, f1])
      (by rw [iterData_rank, iterData_rank, f2])
      (by rw [iterData_num_samples, iterData_num_samples, iterData_total_size,
        iterData_total_size, f3, f4])
      hN2
  refine ⟨(iterData (mtStream s.epoch) s).data.flatten,
    (iterData (mtStream s.epoch) (iterData (mtStream s.epoch) s)).data.flatten,
    hout1, hout2, rfl, ?_⟩
  exact iterData_flatten_perm (mtStream s.epoch) (iterData (mtStream s.epoch) s)

/-- C4 amended witness: the single-replica sampler on lengths
`[10, 20, 30]` with `bucket_size = 3`. -/
theorem sortish_iter_same_epoch_perm_witness :
    mkSortish [10, 20, 30] 3 1 0 =
      some ⟨[[0, 1, 2]], 1, 3, 3, 0, 0, 3⟩ ∧
    (0 : Int) < 3 ∧
    (∃ out1 out2 : List Nat,
      (iterSortishNp ⟨[[0, 1, 2]], 1, 3, 3, 0, 0, 3⟩).1 = some out1 ∧
      (iterSortishNp (iterSortishNp ⟨[[0, 1, 2]], 1, 3, 3, 0, 0, 3⟩).2).1 = some out2 ∧
      (iterSortishNp ⟨[[0, 1, 2]], 1, 3, 3, 0, 0, 3⟩).2.epoch =
        SortishSampler.epoch ⟨[[0, 1, 2]], 1, 3, 3, 0, 0, 3⟩ ∧
      List.Perm out2 out1) :=
  ⟨by decide, by decide,
    sortish_iter_same_epoch_perm [10, 20, 30] 3 ⟨[[0, 1, 2]], 1, 3, 3, 0, 0, 3⟩
      (by decide) (by decide)⟩

/-- C6: for every lengths array, every valid `bucket_size` and every epoch,
the length-`N` index list formed in `__iter__` by concatenating the shuffled
buckets — before wraparound padding — is a permutation of `0..N-1`. -/
theorem sortish_iter_coverage (L : List Nat) (b : Int) (R rk : Nat)
    (s : SortishSampler) (epoch : Nat)
    (h : mkSortish L b R rk = some s) (hb : 0 < b) :
    List.Perm (iterData (mtStream epoch) s).data.flatten (List.range L.length) := by
  have h1 := iterData_flatten_perm (mtStream epoch) s
  rw [mk_data_flatten h hb] at h1
  exact h1.trans (argsort_perm L)

/-- C6 witness: Scenario A, lengths `[5, 1, 2, 8, 3]` in one bucket of 5,
epoch 0; the shuffled concatenation is a permutation of `0..4`. -/
theorem sortish_iter_coverage_witness :
    mkSortish [5, 1, 2, 8, 3] 5 1 0 = some ⟨[[1, 2, 4, 0, 3]], 1, 5, 5, 0, 0, 5⟩ ∧
    (0 : Int) < 5 ∧
    List.Perm (iterData (mtStream 0) ⟨[[1, 2, 4, 0, 3]], 1, 5, 5, 0, 0, 5⟩).data.flatten
      (List.range 5) :=
  ⟨by decide, by decide,
    sortish_iter_coverage [5, 1, 2, 8, 3] 5 1 0 ⟨[[1, 2, 4, 0, 3]], 1, 5, 5, 0, 0, 5⟩ 0
      (by decide) (by decide)⟩

/-- C7 counterexample: for `N = 1`, `num_replicas = 3`, `rank = 0` we get
`num_samples = 1` and `total_size = 3 > 2 * N`, the wraparound pad
`indices[:2]` of the length-1 permutation has only one element, the first
`assert` in `__iter__` fails, and the call yields nothing — not the
`num_samples = 1` indices the claim promises for every `N ≥ 1`,
`num_replicas ≥ 1`. -/
theorem sortish_shard_assert_fails_cex :
    (mkSortish [5] 1 3 0).map (fun s => (iterSortishNp s).1) = some none := by
  decide

/-- C7 (amended): whenever the wraparound pad fits, i.e.
`total_size ≤ 2 * N`, each `__iter__` call yields exactly
`num_samples = ceil(N / num_replicas)` indices — the rank's strided shard of
the padded permutation — every rank's shard has that same length, and the
shards interleaved in strided order (`position i` of the padded permutation
is entry `i / num_replicas` of shard `i % num_replicas`) reconstruct the full
padded permutation of length `total_size`. -/
theorem sortish_shard_completeness (L : List Nat) (b : Int) (R rk : Nat)
    (s : SortishSampler) (stream : Nat → Nat)
    (h : mkSortish L b R rk = some s) (hb : 0 < b) (hrk : rk < R)
    (h2N : s.total_size ≤ 2 * L.length) :
    (iterSortish stream s).1 = some (shardOf (iterData stream s) rk) ∧
    (∀ r, r < R → (shardOf (iterData stream s) r).length = s.num_samples) ∧
    (∀ i, i < s.total_size →
      (paddedIndices (iterData stream s)).getD i 0 =
        (shardOf (iterData stream s) (i % R)).getD (i / R) 0) := by
  obtain ⟨hb0, hR0, hs⟩ := mkSortish_some h
  have hR : 0 < R := Nat.pos_of_ne_zero hR0
  have f1 : s.num_replicas = R := by rw [hs]
  have f2 : s.rank = rk := by rw [hs]
  have f3 : s.num_samples = ((argsort L).length + R - 1) / R := by rw [hs]
  have f4 : s.total_size = s.num_samples * R := by rw [hs]
  have hflat : s.data.flatten = argsort L := mk_data_flatten h hb
  have hNlen : (argsort L).length = L.length := argsort_length L
  have hstlen : (iterData stream s).data.flatten.length = L.length := by
    rw [(iterData_flatten_perm stream s).length_eq, hflat, hNlen]
  have hle : L.length ≤ s.total_size := by
    rw [f4, f3, hNlen]
    exact le_ceil_mul L.length R hR
  have hpadlen : (paddedIndices (iterData stream s)).length =
      (iterData stream s).total_size := by
    refine paddedIndices_length _ ?_ ?_
    · rw [hstlen, iterData_total_size]
      exact hle
    · rw [hstlen, iterData_total_size]
      exact h2N
  have htot' : (iterData stream s).total_size =
      (iterData stream s).num_samples * (iterData stream s).num_replicas := by
    rw [iterData_total_size, iterData_num_samples, iterData_num_replicas, f1]
    exact f4
  have hRst : 0 < (iterData stream s).num_replicas := by
    rw [iterData_num_replicas, f1]
    exact hR
  refine ⟨?_, ?_, ?_⟩
  · have h2 : (shardOf (iterData stream s) (iterData stream s).rank).length =
        (iterData stream s).num_samples := by
      refine shardOf_length _ _ hpadlen htot' hRst ?_
      rw [iterData_rank, f2, iterData_num_replicas, f1]
      exact hrk
    show iterOutput (iterData stream s) = some (shardOf (iterData stream s) rk)
    rw [iterOutput_some _ hpadlen h2, iterData_rank, f2]
  · intro r hr
    rw [shardOf_length _ _ hpadlen htot' hRst (by rw [iterData_num_replicas, f1]; exact hr),
      iterData_num_samples]
  · intro i hi
    have hi' : i < (iterData stream s).total_size := by
      rw [iterData_total_size]
      exact hi
    have h3 := shard_reconstruct _ hpadlen htot' hRst i hi'
    rw [iterData_num_replicas, f1] at h3
    exact h3

/-- C7 amended witness: Scenario C, `N = 10`, `num_replicas = 3`, rank 0:
`num_samples = 4`, `total_size = 12 ≤ 2 * 10`. -/
theorem sortish_shard_completeness_witness :
    mkSortish [1, 2, 3, 4, 5, 6, 7, 8, 9, 10] 4 3 0 =
      some ⟨[[0, 1, 2, 3], [4, 5, 6, 7], [8, 9]], 3, 4, 4, 0, 0, 12⟩ ∧
    (0 : Int) < 4 ∧ (0 : Nat) < 3 ∧ (12 : Nat) ≤ 2 * 10 ∧
    ((iterSortish (fun _ => 0) ⟨[[0, 1, 2, 3], [4, 5, 6, 7], [8, 9]], 3, 4, 4, 0, 0, 12⟩).1 =
        some (shardOf
          (iterData (fun _ => 0) ⟨[[0, 1, 2, 3], [4, 5, 6, 7], [8, 9]], 3, 4, 4, 0, 0, 12⟩) 0) ∧
      (∀ r, r < 3 →
        (shardOf
          (iterData (fun _ => 0) ⟨[[0, 1, 2, 3], [4, 5, 6, 7], [8, 9]], 3, 4, 4, 0, 0, 12⟩)
            r).length = 4) ∧
      (∀ i, i < 12 →
        (paddedIndices
            (iterData (fun _ => 0)
              ⟨[[0, 1, 2, 3], [4, 5, 6, 7], [8, 9]], 3, 4, 4, 0, 0, 12⟩)).getD i 0 =
          (shardOf
              (iterData (fun _ => 0)
                ⟨[[0, 1, 2, 3], [4, 5, 6, 7], [8, 9]], 3, 4, 4, 0, 0, 12⟩)
              (i % 3)).getD (i / 3) 0)) :=
  ⟨by decide, by decide, by decide, by decide,
    sortish_shard_completeness [1, 2, 3, 4, 5, 6, 7, 8, 9, 10] 4 3 0
      ⟨[[0, 1, 2, 3], [4, 5, 6, 7], [8, 9]], 3, 4, 4, 0, 0, 12⟩ (fun _ => 0)
      (by decide) (by decide) (by decide) (by decide)⟩

/-- C8: across any sequence of `set_epoch` and `__iter__` calls, bucket
membership is preserved: the buckets of the reachable state are — up to
bucket order and order within each bucket — exactly the construction
buckets, the contiguous `bucket_size`-sized slices
`order[k * bucket_size : (k + 1) * bucket_size]` of the length-ascending
order computed at construction, independent of epoch. -/
theorem sortish_bucket_membership_invariant (L : List Nat) (b : Int) (R rk : Nat)
    (s : SortishSampler) (ops : List SamplerOp)
    (h : mkSortish L b R rk = some s) :
    List.Perm ((applyOps s ops).data.map Multiset.ofList)
      (((List.range ((ceilIntDiv ((argsort L).length : Int) b).toNat)).map
          (fun i => pySlice (argsort L) (i * b.toNat) (i * b.toNat + b.toNat))).map
        Multiset.ofList) := by
  obtain ⟨_, _, rfl⟩ := mkSortish_some h
  exact applyOps_multiset_perm ops _

/-- C8 witness: lengths `[3, 1, 2]`, `bucket_size = 2`; after
`set_epoch 1` and two `__iter__` calls the buckets are still
`{1, 2}` and `{0}`, the slices of the ascending order `[1, 2, 0]`. -/
theorem sortish_bucket_membership_invariant_witness :
    mkSortish [3, 1, 2] 2 1 0 = some ⟨[[1, 2], [0]], 1, 3, 2, 0, 0, 3⟩ ∧
    List.Perm
      ((applyOps ⟨[[1, 2], [0]], 1, 3, 2, 0, 0, 3⟩
        [SamplerOp.setEpochOp 1, SamplerOp.iterOp, SamplerOp.iterOp]).data.map
          Multiset.ofList)
      (((List.range ((ceilIntDiv ((argsort [3, 1, 2]).length : Int) 2).toNat)).map
          (fun i => pySlice (argsort [3, 1, 2]) (i * (2 : Int).toNat)
            (i * (2 : Int).toNat + (2 : Int).toNat))).map
        Multiset.ofList) :=
  ⟨by decide,
    sortish_bucket_membership_invariant [3, 1, 2] 2 1 0 ⟨[[1, 2], [0]], 1, 3, 2, 0, 0, 3⟩
      [SamplerOp.setEpochOp 1, SamplerOp.iterOp, SamplerOp.iterOp] (by decide)⟩

/-! ### Claims about construction and configuration -/

/-- C9 counterexample: invalid configurations are accepted, no
`ConfigurationError` is raised at construction, and iteration still runs:
`SortishSampler` with negative `bucket_size = -1` and `rank = 5` outside
`[0, 1)` constructs successfully (with an empty bucket list), and
`ApproxBatchSampler` with `max_tokens = 0 < 1` and `max_batch = 0 < 1`
constructs successfully and its iteration still emits a batch. -/
theorem no_configuration_error_cex :
    mkSortish [1, 2, 3] (-1) 1 5 = some ⟨[], 1, 3, -1, 5, 0, 3⟩ ∧
    (mkApprox [0] 0 0 (fun i => [1].getD i 0)).max_tokens = 0 ∧
    approxIter (mkApprox [0] 0 0 (fun i => [1].getD i 0)) = [[]] := by
  refine ⟨by decide, rfl, by decide⟩

/-- C9 (amended): construction performs no validation and never raises a
configuration error: `SortishSampler` construction succeeds for every
nonzero `bucket_size` (negative included) and every `rank`, and
`ApproxBatchSampler` construction always succeeds, storing any `max_tokens`
and `max_batch` — including values below 1 — unchecked. -/
theorem construction_accepts_invalid_config (L : List Nat) (b : Int) (R rk : Nat)
    (sampler : List Nat) (mt mb : Nat) (lengths : Nat → Nat)
    (hb : b ≠ 0) (hR : 0 < R) :
    (mkSortish L b R rk).isSome = true ∧
    (mkApprox sampler mt mb lengths).max_tokens = mt ∧
    (mkApprox sampler mt mb lengths).max_batch = mb := by
  refine ⟨?_, rfl, rfl⟩
  have hcond : ¬(b = 0 ∨ R = 0) := by
    rintro (hc | hc)
    · exact hb hc
    · omega
  unfold mkSortish
  rw [if_neg hcond]
  rfl

/-- C9 amended witness: `bucket_size = -1`, `rank = 5`, `num_replicas = 1`,
`max_tokens = 0`, `max_batch = 0`. -/
theorem construction_accepts_invalid_config_witness :
    ((-1 : Int) ≠ 0) ∧ (0 : Nat) < 1 ∧
    ((mkSortish [1, 2, 3] (-1) 1 5).isSome = true ∧
      (mkApprox [0] 0 0 (fun i => [1].getD i 0)).max_tokens = 0 ∧
      (mkApprox [0] 0 0 (fun i => [1].getD i 0)).max_batch = 0) :=
  ⟨by decide, by decide,
    construction_accepts_invalid_config [1, 2, 3] (-1) 1 5 [0] 0 0
      (fun i => [1].getD i 0) (by decide) (by decide)⟩

/-- C10: a freshly constructed sampler has `epoch = 0`, so iterating before
any `set_epoch` call uses the stream seeded with 0; and `set_epoch e` changes
only the `epoch` field, leaving the bucket partition, replica parameters and
sizes untouched. -/
theorem fresh_epoch_zero_set_epoch_frame (L : List Nat) (b : Int) (R rk : Nat)
    (s : SortishSampler) (e : Nat) (h : mkSortish L b R rk = some s) :
    s.epoch = 0 ∧
    iterSortishNp s = iterSortish (mtStream 0) s ∧
    (set_epoch s e).epoch = e ∧
    (set_epoch s e).data = s.data ∧
    (set_epoch s e).num_replicas = s.num_replicas ∧
    (set_epoch s e).num_samples = s.num_samples ∧
    (set_epoch s e).bucket_size = s.bucket_size ∧
    (set_epoch s e).rank = s.rank ∧
    (set_epoch s e).total_size = s.total_size := by
  obtain ⟨_, _, rfl⟩ := mkSortish_some h
  exact ⟨rfl, rfl, rfl, rfl, rfl, rfl, rfl, rfl, rfl⟩

/-- C10 witness: the one-element sampler; `set_epoch 7` only moves the
epoch. -/
theorem fresh_epoch_zero_set_epoch_frame_witness :
    mkSortish [1] 1 1 0 = some ⟨[[0]], 1, 1, 1, 0, 0, 1⟩ ∧
    (SortishSampler.epoch ⟨[[0]], 1, 1, 1, 0, 0, 1⟩ = 0 ∧
      iterSortishNp ⟨[[0]], 1, 1, 1, 0, 0, 1⟩ =
        iterSortish (mtStream 0) ⟨[[0]], 1, 1, 1, 0, 0, 1⟩ ∧
      (set_epoch ⟨[[0]], 1, 1, 1, 0, 0, 1⟩ 7).epoch = 7 ∧
      (set_epoch ⟨[[0]], 1, 1, 1, 0, 0, 1⟩ 7).data =
        SortishSampler.data ⟨[[0]], 1, 1, 1, 0, 0, 1⟩ ∧
      (set_epoch ⟨[[0]], 1, 1, 1, 0, 0, 1⟩ 7).num_replicas =
        SortishSampler.num_replicas ⟨[[0]], 1, 1, 1, 0, 0, 1⟩ ∧
      (set_epoch ⟨[[0]], 1, 1, 1, 0, 0, 1⟩ 7).num_samples =
        SortishSampler.num_samples ⟨[[0]], 1, 1, 1, 0, 0, 1⟩ ∧
      (set_epoch ⟨[[0]], 1, 1, 1, 0, 0, 1⟩ 7).bucket_size =
        SortishSampler.bucket_size ⟨[[0]], 1, 1, 1, 0, 0, 1⟩ ∧
      (set_epoch ⟨[[0]], 1, 1, 1, 0, 0, 1⟩ 7).rank =
        SortishSampler.rank ⟨[[0]], 1, 1, 1, 0, 0, 1⟩ ∧
      (set_epoch ⟨[[0]], 1, 1, 1, 0, 0, 1⟩ 7).total_size =
        SortishSampler.total_size ⟨[[0]], 1, 1, 1, 0, 0, 1⟩) :=
  ⟨by decide,
    fresh_epoch_zero_set_epoch_frame [1] 1 1 0 ⟨[[0]], 1, 1, 1, 0, 0, 1⟩ 7 (by decide)⟩
